import Mathlib

/-!
Verification of the force-directed layout engine in
`src/client/src/wasm/force-calculations.cpp`.

The C++ engine works on `float`; we model the scalar arithmetic exactly over
`ℝ` (so the algebraic structure of the algorithm, guards included, is captured
without rounding).  The locals `dx, dy, dz, distance` of the source are the
helper functions `disp` and `dist` here.  `std::vector` indexing with
`operator[]` is unchecked in C++: an out-of-range access is undefined
behavior.  We model any such access as aborting the computation at that
point, carrying the node state as mutated so far (`Except`-error); this is
the defined-behavior prefix of the execution.
-/

namespace ForceCalc

/-- 3-component vector of scalars, mirroring `struct Vec3 { float x, y, z; }`. -/
@[ext] structure Vec3 where
  x : ℝ
  y : ℝ
  z : ℝ

/-- Mirrors `struct Node { Vec3 position; Vec3 velocity; float charge; }`. -/
@[ext] structure Node where
  position : Vec3
  velocity : Vec3
  charge : ℝ

/-- Mirrors `struct Link { int source; int target; }`; C++ `int` is modelled as `ℤ`. -/
structure Link where
  source : ℤ
  target : ℤ

/-- The private state of `class ForceSimulation`. -/
@[ext] structure ForceSimulation where
  nodes : List Node
  links : List Link
  distances : List ℝ
  strengths : List ℝ
  maxDistance : ℝ
  velocityDecay : ℝ

/-- Checked translation of `std::vector` indexing by a C++ `int`:
`some i.toNat` when `0 ≤ i < n`, `none` (undefined behavior in C++) otherwise. -/
def idx? (n : ℕ) (i : ℤ) : Option ℕ :=
  if 0 ≤ i ∧ i.toNat < n then some i.toNat else none

/-- `setNodes`: replaces the whole node array. -/
def ForceSimulation.setNodes (s : ForceSimulation) (newNodes : List Node) : ForceSimulation :=
  { s with nodes := newNodes }

/-- `setLinks`: replaces the whole link array. -/
def ForceSimulation.setLinks (s : ForceSimulation) (newLinks : List Link) : ForceSimulation :=
  { s with links := newLinks }

/-- `setDistances`: replaces the whole per-link rest-length array. -/
def ForceSimulation.setDistances (s : ForceSimulation) (newDistances : List ℝ) : ForceSimulation :=
  { s with distances := newDistances }

/-- `setStrengths`: replaces the whole per-link stiffness array. -/
def ForceSimulation.setStrengths (s : ForceSimulation) (newStrengths : List ℝ) : ForceSimulation :=
  { s with strengths := newStrengths }

/-- `getNodes`: the current node state (the C++ method returns
`const std::vector<Node>&`, i.e. the vector `nodes` itself). -/
def ForceSimulation.getNodes (s : ForceSimulation) : List Node := s.nodes

noncomputable section

/-- The displacement `(dx, dy, dz) = b.position - a.position` computed by both
force loops. -/
def disp (a b : Node) : Vec3 :=
  ⟨b.position.x - a.position.x, b.position.y - a.position.y, b.position.z - a.position.z⟩

/-- `distance = sqrt(dx*dx + dy*dy + dz*dz)` computed by both force loops. -/
def dist (a b : Node) : ℝ :=
  Real.sqrt ((disp a b).x * (disp a b).x + (disp a b).y * (disp a b).y +
             (disp a b).z * (disp a b).z)

/-- The local `float repulsion = nodes[i].charge * nodes[j].charge / (distance * distance)`
of line 69. -/
def repulsionMag (ni nj : Node) : ℝ :=
  ni.charge * nj.charge / (dist ni nj * dist ni nj)

/-- One iteration of the inner repulsion loop (lines 62–74): given outer node
`ni`, inner node `nj` and the accumulator `force`, add the pair's
contribution when `0 < distance < maxD`, else leave the accumulator alone. -/
def pairStep (maxD : ℝ) (ni nj : Node) (force : Vec3) : Vec3 :=
  if 0 < dist ni nj ∧ dist ni nj < maxD then
    ⟨force.x + (disp ni nj).x / dist ni nj * repulsionMag ni nj,
     force.y + (disp ni nj).y / dist ni nj * repulsionMag ni nj,
     force.z + (disp ni nj).z / dist ni nj * repulsionMag ni nj⟩
  else force

/-- The inner loop of the repulsion phase (lines 60–75): fold `pairStep` over
all inner indices `j ≠ i` of the current array, starting from the zero
accumulator. -/
def repulsionForce (nodes : List Node) (maxD : ℝ) (i : ℕ) (ni : Node) : Vec3 :=
  (List.range nodes.length).foldl
    (fun force j =>
      if i ≠ j then
        match nodes[j]? with
        | some nj => pairStep maxD ni nj force
        | none => force
      else force)
    ⟨0, 0, 0⟩

/-- One iteration of the outer repulsion loop (lines 59–79): run the inner
loop for index `i` on the current array, then `nodes[i].velocity += force`. -/
def repulsionStep (maxD : ℝ) (cur : List Node) (i : ℕ) : List Node :=
  match cur[i]? with
  | some ni =>
    let f := repulsionForce cur maxD i ni
    cur.set i { ni with velocity :=
      ⟨ni.velocity.x + f.x, ni.velocity.y + f.y, ni.velocity.z + f.z⟩ }
  | none => cur

/-- The repulsion phase (lines 59–79): the outer loop updates node velocities
in place, in index order; the inner loop of iteration `i` reads the *current*
array (which differs from the phase's input only in velocities of indices `< i`). -/
def repulsionPhase (nodes : List Node) (maxD : ℝ) : List Node :=
  (List.range nodes.length).foldl (repulsionStep maxD) nodes

/-- The local `float force = strength * (distance - targetDistance)` of line 94. -/
def linkForce (tD st : ℝ) (src tgt : Node) : ℝ :=
  st * (dist src tgt - tD)

/-- The local `float fx = dx/distance * force` of line 95. -/
def linkFx (tD st : ℝ) (src tgt : Node) : ℝ :=
  (disp src tgt).x / dist src tgt * linkForce tD st src tgt

/-- The local `float fy = dy/distance * force` of line 96. -/
def linkFy (tD st : ℝ) (src tgt : Node) : ℝ :=
  (disp src tgt).y / dist src tgt * linkForce tD st src tgt

/-- The local `float fz = dz/distance * force` of line 97. -/
def linkFz (tD st : ℝ) (src tgt : Node) : ℝ :=
  (disp src tgt).z / dist src tgt * linkForce tD st src tgt

/-- Lines 99–101: `nodes[source].velocity += (fx, fy, fz)`. -/
def srcUpd (tD st : ℝ) (src tgt : Node) : Node :=
  { src with velocity :=
      ⟨src.velocity.x + linkFx tD st src tgt,
       src.velocity.y + linkFy tD st src tgt,
       src.velocity.z + linkFz tD st src tgt⟩ }

/-- Lines 103–105: `nodes[target].velocity -= (fx, fy, fz)`, applied to the
target node as read *after* the source update. -/
def tgtUpd (tD st : ℝ) (src tgt tgt1 : Node) : Node :=
  { tgt1 with velocity :=
      ⟨tgt1.velocity.x - linkFx tD st src tgt,
       tgt1.velocity.y - linkFy tD st src tgt,
       tgt1.velocity.z - linkFz tD st src tgt⟩ }

/-- One iteration of the link loop (lines 82–107) for a single link, given its
rest length `tD` and stiffness `st`.  `none` models the undefined behavior of
an out-of-range `nodes[source]` / `nodes[target]` access.  Updates are
sequential as in the source: first `nodes[source].velocity += f`, then
`nodes[target].velocity -= f` on the already-updated array. -/
def applyLink (nodes : List Node) (lk : Link) (tD st : ℝ) : Option (List Node) := do
  let s ← idx? nodes.length lk.source
  let t ← idx? nodes.length lk.target
  let src ← nodes[s]?
  let tgt ← nodes[t]?
  if 0 < dist src tgt then
    let tgt1 ← (nodes.set s (srcUpd tD st src tgt))[t]?
    pure ((nodes.set s (srcUpd tD st src tgt)).set t (tgtUpd tD st src tgt tgt1))
  else
    pure nodes

/-- The link phase (lines 82–107): iterate over the links in order, reading
`distances[i]` and `strengths[i]` positionally; a missing constraint entry or
an out-of-range node access is undefined behavior in the C++, modelled as an
`Except.error` carrying the node state as mutated so far. -/
def linkLoop : List Link → List ℝ → List ℝ → List Node → Except (List Node) (List Node)
  | [], _, _, nodes => .ok nodes
  | _ :: _, [], _, nodes => .error nodes
  | _ :: _, _ :: _, [], nodes => .error nodes
  | lk :: rest, d :: ds, st :: sts, nodes =>
    match applyLink nodes lk d st with
    | some nodes' => linkLoop rest ds sts nodes'
    | none => .error nodes

/-- The integration step for one node (lines 110–118): `position += velocity`
first, then `velocity *= velocityDecay`. -/
def integrateNode (decay : ℝ) (n : Node) : Node :=
  { position := ⟨n.position.x + n.velocity.x, n.position.y + n.velocity.y,
                 n.position.z + n.velocity.z⟩,
    velocity := ⟨n.velocity.x * decay, n.velocity.y * decay, n.velocity.z * decay⟩,
    charge := n.charge }

/-- The integration phase (lines 109–118). -/
def integrationPhase (nodes : List Node) (decay : ℝ) : List Node :=
  nodes.map (integrateNode decay)

/-- `ForceSimulation::step` (lines 57–119): repulsion phase, then link phase,
then integration.  `Except.error` models reaching undefined behavior (an
unchecked out-of-range access) in the link phase; it carries the state as
mutated up to that point.  There is no validation before the phases run. -/
def ForceSimulation.step (s : ForceSimulation) : Except ForceSimulation ForceSimulation :=
  match linkLoop s.links s.distances s.strengths (repulsionPhase s.nodes s.maxDistance) with
  | .error nds => .error { s with nodes := nds }
  | .ok nds => .ok { s with nodes := integrationPhase nds s.velocityDecay }

/-- Iterated stepping: `stepN k` performs `k` successive `step()` calls,
propagating a failure. -/
def stepN : ℕ → ForceSimulation → Except ForceSimulation ForceSimulation
  | 0, s => .ok s
  | k + 1, s =>
    match s.step with
    | .ok s' => stepN k s'
    | .error f => .error f

/-- A link's two indices address existing nodes. -/
def linkInRange (n : ℕ) (lk : Link) : Prop :=
  0 ≤ lk.source ∧ lk.source.toNat < n ∧ 0 ≤ lk.target ∧ lk.target.toNat < n

instance (n : ℕ) (lk : Link) : Decidable (linkInRange n lk) := by
  unfold linkInRange; infer_instance

/-- The configurations on which the link phase performs no out-of-range
access: every link index addresses a node, and the constraint arrays are at
least as long as the link array. -/
def validTopology (s : ForceSimulation) : Prop :=
  (∀ lk ∈ s.links, linkInRange s.nodes.length lk) ∧
  s.links.length ≤ s.distances.length ∧ s.links.length ≤ s.strengths.length

/-- Spec-language per-pair repulsion contribution (claim C2): nothing when the
distance is `0` or at least `maxD`; otherwise `magnitude = qᵢ·qⱼ/d²` times the
unit vector `disp/d`. -/
def pairDelta (maxD : ℝ) (ni nj : Node) : Vec3 :=
  if dist ni nj = 0 ∨ maxD ≤ dist ni nj then ⟨0, 0, 0⟩
  else
    ⟨ni.charge * nj.charge / dist ni nj ^ 2 * ((disp ni nj).x / dist ni nj),
     ni.charge * nj.charge / dist ni nj ^ 2 * ((disp ni nj).y / dist ni nj),
     ni.charge * nj.charge / dist ni nj ^ 2 * ((disp ni nj).z / dist ni nj)⟩

/-- Spec-language per-link force vector (claim C3): zero when the distance is
`0`; otherwise `force = strength · (d - targetDistance)` times the unit
direction `disp/d`. -/
def linkDelta (tD st : ℝ) (src tgt : Node) : Vec3 :=
  if dist src tgt = 0 then ⟨0, 0, 0⟩
  else
    ⟨st * (dist src tgt - tD) * ((disp src tgt).x / dist src tgt),
     st * (dist src tgt - tD) * ((disp src tgt).y / dist src tgt),
     st * (dist src tgt - tD) * ((disp src tgt).z / dist src tgt)⟩

/-- The node update performed for index `j` by the repulsion phase, with the
inner-loop force computed from the list `nodes`. -/
def updNode (nodes : List Node) (maxD : ℝ) (j : ℕ) (nj : Node) : Node :=
  { nj with velocity :=
      ⟨nj.velocity.x + (repulsionForce nodes maxD j nj).x,
       nj.velocity.y + (repulsionForce nodes maxD j nj).y,
       nj.velocity.z + (repulsionForce nodes maxD j nj).z⟩ }

/-- Two node lists agree in length and in every node's position and charge
(velocities may differ). -/
def sameGeom (a b : List Node) : Prop :=
  a.length = b.length ∧
  ∀ j : ℕ, (a[j]?).map Node.position = (b[j]?).map Node.position ∧
    (a[j]?).map Node.charge = (b[j]?).map Node.charge

/-- Spec-language effect of one link on the node at index `m` (claim C3):
the force vector is added at the source index `s` and the same vector is
subtracted at the target index `t`; position and charge are untouched. -/
def linkUpd (tD st : ℝ) (srcN tgtN : Node) (s t m : ℕ) (nm : Node) : Node :=
  { position := nm.position,
    velocity :=
      ⟨nm.velocity.x + (if m = s then (linkDelta tD st srcN tgtN).x else 0)
                     - (if m = t then (linkDelta tD st srcN tgtN).x else 0),
       nm.velocity.y + (if m = s then (linkDelta tD st srcN tgtN).y else 0)
                     - (if m = t then (linkDelta tD st srcN tgtN).y else 0),
       nm.velocity.z + (if m = s then (linkDelta tD st srcN tgtN).z else 0)
                     - (if m = t then (linkDelta tD st srcN tgtN).z else 0)⟩,
    charge := nm.charge }

/-- The contribution of inner index `j` to the repulsion force on node `ni`
at outer index `i`, in spec language (zero on the diagonal and out of range). -/
def repulsionItem (maxD : ℝ) (i : ℕ) (nodes : List Node) (ni : Node) (j : ℕ) : Vec3 :=
  match nodes[j]? with
  | some nj => if i = j then ⟨0, 0, 0⟩ else pairDelta maxD ni nj
  | none => ⟨0, 0, 0⟩

/-- Division with an explicit divisor check: `none` signals an attempted
division by zero.  Used by the checked mirror of `step()` for claim C9. -/
def safeDiv (a b : ℝ) : Option ℝ :=
  if b = 0 then none else some (a / b)

/-- `pairStep` with every division routed through `safeDiv`. -/
def pairStepChecked (maxD : ℝ) (ni nj : Node) (force : Vec3) : Option Vec3 :=
  if 0 < dist ni nj ∧ dist ni nj < maxD then do
    let repulsion ← safeDiv (ni.charge * nj.charge) (dist ni nj * dist ni nj)
    let ux ← safeDiv (disp ni nj).x (dist ni nj)
    let uy ← safeDiv (disp ni nj).y (dist ni nj)
    let uz ← safeDiv (disp ni nj).z (dist ni nj)
    pure ⟨force.x + ux * repulsion, force.y + uy * repulsion, force.z + uz * repulsion⟩
  else pure force

/-- The inner repulsion loop with checked divisions. -/
def repulsionForceChecked (nodes : List Node) (maxD : ℝ) (i : ℕ) (ni : Node) :
    Option Vec3 :=
  (List.range nodes.length).foldl
    (fun acc j =>
      acc.bind fun force =>
        if i ≠ j then
          match nodes[j]? with
          | some nj => pairStepChecked maxD ni nj force
          | none => pure force
        else pure force)
    (pure ⟨0, 0, 0⟩)

/-- One outer repulsion iteration with checked divisions. -/
def repulsionStepChecked (maxD : ℝ) (cur : List Node) (i : ℕ) : Option (List Node) :=
  match cur[i]? with
  | some ni =>
    (repulsionForceChecked cur maxD i ni).bind fun f =>
      pure (cur.set i { ni with velocity :=
        ⟨ni.velocity.x + f.x, ni.velocity.y + f.y, ni.velocity.z + f.z⟩ })
  | none => pure cur

/-- The repulsion phase with checked divisions. -/
def repulsionPhaseChecked (nodes : List Node) (maxD : ℝ) : Option (List Node) :=
  (List.range nodes.length).foldl
    (fun acc i => acc.bind fun cur => repulsionStepChecked maxD cur i)
    (pure nodes)

/-- One link iteration with checked divisions. -/
def applyLinkChecked (nodes : List Node) (lk : Link) (tD st : ℝ) : Option (List Node) := do
  let s ← idx? nodes.length lk.source
  let t ← idx? nodes.length lk.target
  let src ← nodes[s]?
  let tgt ← nodes[t]?
  if 0 < dist src tgt then
    let ux ← safeDiv (disp src tgt).x (dist src tgt)
    let uy ← safeDiv (disp src tgt).y (dist src tgt)
    let uz ← safeDiv (disp src tgt).z (dist src tgt)
    let tgt1 ← (nodes.set s { src with velocity :=
      ⟨src.velocity.x + ux * linkForce tD st src tgt,
       src.velocity.y + uy * linkForce tD st src tgt,
       src.velocity.z + uz * linkForce tD st src tgt⟩ })[t]?
    pure ((nodes.set s { src with velocity :=
      ⟨src.velocity.x + ux * linkForce tD st src tgt,
       src.velocity.y + uy * linkForce tD st src tgt,
       src.velocity.z + uz * linkForce tD st src tgt⟩ }).set t
      { tgt1 with velocity :=
        ⟨tgt1.velocity.x - ux * linkForce tD st src tgt,
         tgt1.velocity.y - uy * linkForce tD st src tgt,
         tgt1.velocity.z - uz * linkForce tD st src tgt⟩ })
  else
    pure nodes

/-- The link phase with checked divisions (`none` on any failure). -/
def linkLoopChecked : List Link → List ℝ → List ℝ → List Node → Option (List Node)
  | [], _, _, nodes => some nodes
  | _ :: _, [], _, _ => none
  | _ :: _, _ :: _, [], _ => none
  | lk :: rest, d :: ds, st :: sts, nodes =>
    match applyLinkChecked nodes lk d st with
    | some nodes' => linkLoopChecked rest ds sts nodes'
    | none => none

/-- `step()` with every scalar division checked: `none` means some division
by zero (or out-of-range access) was attempted. -/
def ForceSimulation.stepChecked (s : ForceSimulation) : Option ForceSimulation := do
  let n1 ← repulsionPhaseChecked s.nodes s.maxDistance
  let n2 ← linkLoopChecked s.links s.distances s.strengths n1
  pure { s with nodes := integrationPhase n2 s.velocityDecay }

/-- Euclidean magnitude of a vector. -/
def Vec3.mag (v : Vec3) : ℝ :=
  Real.sqrt (v.x * v.x + v.y * v.y + v.z * v.z)

/-- Closed form of the single-node evolution (claim C7): after `k` steps with
damping `d`, the velocity is `d^k` times the initial one and the position has
moved by `(∑ j < k, d^j)` times the initial velocity. -/
def singleNodeAt (d : ℝ) (n : Node) (k : ℕ) : Node :=
  { position :=
      ⟨n.position.x + (∑ j in Finset.range k, d ^ j) * n.velocity.x,
       n.position.y + (∑ j in Finset.range k, d ^ j) * n.velocity.y,
       n.position.z + (∑ j in Finset.range k, d ^ j) * n.velocity.z⟩,
    velocity := ⟨d ^ k * n.velocity.x, d ^ k * n.velocity.y, d ^ k * n.velocity.z⟩,
    charge := n.charge }

/-- Test node at the origin with unit charge and zero velocity. -/
def nodeA : Node := { position := ⟨0, 0, 0⟩, velocity := ⟨0, 0, 0⟩, charge := 1 }

/-- Test node at `(1,0,0)` with unit charge and zero velocity. -/
def nodeB : Node := { position := ⟨1, 0, 0⟩, velocity := ⟨0, 0, 0⟩, charge := 1 }

/-- Test node with nonzero velocity. -/
def nodeV : Node := { position := ⟨1, 2, 3⟩, velocity := ⟨4, 5, 6⟩, charge := 7 }

/-- Two charged nodes one unit apart, no links, damping `d`. -/
def simTwo (d : ℝ) : ForceSimulation :=
  { nodes := [nodeA, nodeB], links := [], distances := [], strengths := [],
    maxDistance := 100, velocityDecay := d }

/-- A single moving node, no links, damping `d`. -/
def simOne (d : ℝ) : ForceSimulation :=
  { nodes := [nodeV], links := [], distances := [], strengths := [],
    maxDistance := 100, velocityDecay := d }

/-- Two nodes and one link whose target index equals the node count. -/
def simBad : ForceSimulation :=
  { nodes := [nodeA, nodeB], links := [{ source := 0, target := 2 }],
    distances := [1], strengths := [1], maxDistance := 100, velocityDecay := 1/2 }

/-- Two nodes and one valid link. -/
def simLink : ForceSimulation :=
  { nodes := [nodeA, nodeB], links := [{ source := 0, target := 1 }],
    distances := [1], strengths := [2], maxDistance := 100, velocityDecay := 1/2 }

/-- The empty simulation. -/
def simNil : ForceSimulation :=
  { nodes := [], links := [], distances := [], strengths := [],
    maxDistance := 100, velocityDecay := 1/2 }

end

lemma dist_nonneg (a b : Node) : 0 ≤ dist a b := Real.sqrt_nonneg _

lemma not_guard_iff {d maxD : ℝ} (h : 0 ≤ d) :
    ¬(0 < d ∧ d < maxD) ↔ (d = 0 ∨ maxD ≤ d) := by
  rw [not_and_or, not_lt, not_lt]
  constructor
  · rintro (h1 | h2)
    · exact Or.inl (le_antisymm h1 h)
    · exact Or.inr h2
  · rintro (h1 | h2)
    · exact Or.inl h1.le
    · exact Or.inr h2

lemma pairStep_eq_add (maxD : ℝ) (ni nj : Node) (f : Vec3) :
    pairStep maxD ni nj f =
      ⟨f.x + (pairDelta maxD ni nj).x, f.y + (pairDelta maxD ni nj).y,
       f.z + (pairDelta maxD ni nj).z⟩ := by
  by_cases h : 0 < dist ni nj ∧ dist ni nj < maxD
  · have h2 : ¬(dist ni nj = 0 ∨ maxD ≤ dist ni nj) := by
      rw [← not_guard_iff (dist_nonneg ni nj)]
      exact not_not_intro h
    unfold pairStep pairDelta repulsionMag
    rw [if_pos h, if_neg h2]
    refine Vec3.ext ?_ ?_ ?_ <;> · simp only; ring
  · have h2 : dist ni nj = 0 ∨ maxD ≤ dist ni nj :=
      (not_guard_iff (dist_nonneg ni nj)).mp h
    unfold pairStep pairDelta
    rw [if_neg h, if_pos h2]
    refine Vec3.ext ?_ ?_ ?_ <;> · simp only; ring

lemma pairStep_congr (maxD : ℝ) (ni : Node) {nj nj' : Node} (f : Vec3)
    (hp : nj.position = nj'.position) (hc : nj.charge = nj'.charge) :
    pairStep maxD ni nj f = pairStep maxD ni nj' f := by
  unfold pairStep repulsionMag dist disp
  rw [hp, hc]

lemma updNode_position (nodes : List Node) (maxD : ℝ) (j : ℕ) (nj : Node) :
    (updNode nodes maxD j nj).position = nj.position := rfl

lemma updNode_charge (nodes : List Node) (maxD : ℝ) (j : ℕ) (nj : Node) :
    (updNode nodes maxD j nj).charge = nj.charge := rfl

lemma foldl_vec_add (g : ℕ → Vec3) (init : Vec3) (n : ℕ) :
    (List.range n).foldl (fun f j => ⟨f.x + (g j).x, f.y + (g j).y, f.z + (g j).z⟩) init =
      ⟨init.x + ∑ j in Finset.range n, (g j).x,
       init.y + ∑ j in Finset.range n, (g j).y,
       init.z + ∑ j in Finset.range n, (g j).z⟩ := by
  induction n with
  | zero => simp
  | succ n ih =>
    rw [List.range_succ, List.foldl_append, ih]
    refine Vec3.ext ?_ ?_ ?_ <;>
      · simp [Finset.sum_range_succ]; ring

lemma repulsionItem_get (maxD : ℝ) (i : ℕ) (nodes : List Node) (ni : Node)
    (j : Fin nodes.length) :
    repulsionItem maxD i nodes ni (j : ℕ) =
      if i = (j : ℕ) then ⟨0, 0, 0⟩ else pairDelta maxD ni (nodes.get j) := by
  unfold repulsionItem
  rw [List.getElem?_eq_getElem j.isLt, List.get_eq_getElem]

/-- The inner repulsion loop, rewritten as a sum of spec-language per-pair
contributions over the index range. -/
lemma repulsionForce_eq_sum (nodes : List Node) (maxD : ℝ) (i : ℕ) (ni : Node) :
    repulsionForce nodes maxD i ni =
      ⟨∑ j : Fin nodes.length,
         (if i = (j : ℕ) then (⟨0, 0, 0⟩ : Vec3) else pairDelta maxD ni (nodes.get j)).x,
       ∑ j : Fin nodes.length,
         (if i = (j : ℕ) then (⟨0, 0, 0⟩ : Vec3) else pairDelta maxD ni (nodes.get j)).y,
       ∑ j : Fin nodes.length,
         (if i = (j : ℕ) then (⟨0, 0, 0⟩ : Vec3) else pairDelta maxD ni (nodes.get j)).z⟩ := by
  have key : repulsionForce nodes maxD i ni =
      (List.range nodes.length).foldl
        (fun f j => ⟨f.x + (repulsionItem maxD i nodes ni j).x,
                     f.y + (repulsionItem maxD i nodes ni j).y,
                     f.z + (repulsionItem maxD i nodes ni j).z⟩)
        ⟨0, 0, 0⟩ := by
    unfold repulsionForce
    refine List.foldl_ext _ _ _ ?_
    intro f j _
    unfold repulsionItem
    by_cases hij : i = j
    · rw [if_neg (not_not_intro hij)]
      cases h : nodes[j]? with
      | none => simp
      | some nj => simp [hij]
    · rw [if_pos hij]
      cases h : nodes[j]? with
      | none => simp
      | some nj => simp [pairStep_eq_add, hij]
  rw [key, foldl_vec_add (repulsionItem maxD i nodes ni)]
  refine Vec3.ext ?_ ?_ ?_ <;>
  · simp only
    rw [zero_add, Finset.sum_range]
    exact Finset.sum_congr rfl fun j _ => by rw [repulsionItem_get]

lemma repulsionForce_congr {a b : List Node} (maxD : ℝ) (i : ℕ) (ni : Node)
    (h : sameGeom a b) :
    repulsionForce a maxD i ni = repulsionForce b maxD i ni := by
  unfold repulsionForce
  rw [h.1]
  refine List.foldl_ext _ _ _ ?_
  intro f j _
  by_cases hij : i = j
  · rw [if_neg (not_not_intro hij), if_neg (not_not_intro hij)]
  · rw [if_pos hij, if_pos hij]
    obtain ⟨h1, h2⟩ := h.2 j
    cases ha : a[j]? with
    | none =>
      cases hb : b[j]? with
      | none => rfl
      | some nb => rw [ha, hb] at h1; simp at h1
    | some na =>
      cases hb : b[j]? with
      | none => rw [ha, hb] at h1; simp at h1
      | some nb =>
        rw [ha, hb] at h1 h2
        simp only [Option.map_some'] at h1 h2
        exact pairStep_congr maxD ni f (Option.some.inj h1) (Option.some.inj h2)

lemma repulsionStep_some {cur : List Node} {i : ℕ} {ni : Node} (maxD : ℝ)
    (h : cur[i]? = some ni) :
    repulsionStep maxD cur i =
      cur.set i { ni with velocity :=
        ⟨ni.velocity.x + (repulsionForce cur maxD i ni).x,
         ni.velocity.y + (repulsionForce cur maxD i ni).y,
         ni.velocity.z + (repulsionForce cur maxD i ni).z⟩ } := by
  unfold repulsionStep
  rw [h]

/-- Invariant of the outer repulsion loop after `k` iterations: nodes with
index `< k` carry their snapshot-force update, nodes with index `≥ k` are
untouched. -/
lemma repulsionPhase_aux (nodes : List Node) (maxD : ℝ) :
    ∀ k, k ≤ nodes.length →
      ((List.range k).foldl (repulsionStep maxD) nodes).length = nodes.length ∧
      (∀ j, j < k → ((List.range k).foldl (repulsionStep maxD) nodes)[j]? =
          (nodes[j]?).map (updNode nodes maxD j)) ∧
      (∀ j, k ≤ j → ((List.range k).foldl (repulsionStep maxD) nodes)[j]? = nodes[j]?) := by
  intro k
  induction k with
  | zero =>
    intro _
    exact ⟨rfl, fun j hj => absurd hj (Nat.not_lt_zero j), fun j _ => rfl⟩
  | succ k ih =>
    intro hk
    obtain ⟨hlen, hlt, hge⟩ := ih (Nat.le_of_succ_le hk)
    have hklt : k < nodes.length := hk
    set cur := (List.range k).foldl (repulsionStep maxD) nodes with hcur
    have hfold : (List.range (k + 1)).foldl (repulsionStep maxD) nodes =
        repulsionStep maxD cur k := by
      rw [hcur, List.range_succ, List.foldl_append, List.foldl_cons, List.foldl_nil]
    have hnk : nodes[k]? = some (nodes.get ⟨k, hklt⟩) := by
      rw [List.getElem?_eq_getElem hklt, List.get_eq_getElem]
    have hcurk : cur[k]? = some (nodes.get ⟨k, hklt⟩) := by rw [hge k le_rfl, hnk]
    have hgeom : sameGeom cur nodes := by
      refine ⟨hlen, ?_⟩
      intro j
      rcases lt_or_ge j k with hjk | hjk
      · rw [hlt j hjk]
        cases hj : nodes[j]? with
        | none => simp
        | some nj => simp [updNode]
      · rw [hge j hjk]
        exact ⟨rfl, rfl⟩
    have hforce : repulsionForce cur maxD k (nodes.get ⟨k, hklt⟩) =
        repulsionForce nodes maxD k (nodes.get ⟨k, hklt⟩) :=
      repulsionForce_congr maxD k _ hgeom
    have hstep : (List.range (k + 1)).foldl (repulsionStep maxD) nodes =
        cur.set k (updNode nodes maxD k (nodes.get ⟨k, hklt⟩)) := by
      rw [hfold, repulsionStep_some maxD hcurk, hforce]
      rfl
    rw [hstep]
    refine ⟨?_, ?_, ?_⟩
    · rw [List.length_set]; exact hlen
    · intro j hj
      rcases Nat.lt_succ_iff_lt_or_eq.mp hj with hjk | rfl
      · rw [List.getElem?_set_ne (Nat.ne_of_gt hjk)]
        exact hlt j hjk
      · rw [List.getElem?_set_eq_of_lt _ (by rw [hlen]; exact hklt), hnk]
        rfl
    · intro j hj
      rw [List.getElem?_set_ne (Nat.ne_of_lt hj)]
      exact hge j (Nat.le_of_succ_le hj)

lemma repulsionPhase_length (nodes : List Node) (maxD : ℝ) :
    (repulsionPhase nodes maxD).length = nodes.length :=
  (repulsionPhase_aux nodes maxD nodes.length le_rfl).1

/-- Full characterization of the repulsion phase: every node keeps its
position and charge and gains the snapshot-force velocity update. -/
lemma repulsionPhase_getElem? (nodes : List Node) (maxD : ℝ) (j : ℕ) :
    (repulsionPhase nodes maxD)[j]? = (nodes[j]?).map (updNode nodes maxD j) := by
  obtain ⟨hlen, hlt, hge⟩ := repulsionPhase_aux nodes maxD nodes.length le_rfl
  rcases lt_or_ge j nodes.length with hj | hj
  · exact hlt j hj
  · rw [repulsionPhase, hge j hj, List.getElem?_eq_none hj]
    rfl

lemma dist_self (n : Node) : dist n n = 0 := by
  unfold dist disp
  simp

lemma idx?_eq_some {n : ℕ} {i : ℤ} {k : ℕ} :
    idx? n i = some k ↔ (0 ≤ i ∧ i.toNat < n) ∧ k = i.toNat := by
  unfold idx?
  by_cases h : 0 ≤ i ∧ i.toNat < n
  · rw [if_pos h]
    simp [h, eq_comm]
  · rw [if_neg h]
    simp [h]

lemma sameGeom_refl (a : List Node) : sameGeom a a := ⟨rfl, fun _ => ⟨rfl, rfl⟩⟩

lemma sameGeom_trans {a b c : List Node} (h1 : sameGeom a b) (h2 : sameGeom b c) :
    sameGeom a c :=
  ⟨h1.1.trans h2.1, fun j => ⟨(h1.2 j).1.trans (h2.2 j).1, (h1.2 j).2.trans (h2.2 j).2⟩⟩

lemma sameGeom_set {nodes : List Node} {i : ℕ} {ni ni' : Node}
    (h : nodes[i]? = some ni) (hp : ni'.position = ni.position)
    (hc : ni'.charge = ni.charge) :
    sameGeom (nodes.set i ni') nodes := by
  have hlt : i < nodes.length := by
    rcases List.getElem?_eq_some.mp h with ⟨hl, _⟩
    exact hl
  refine ⟨by rw [List.length_set], ?_⟩
  intro j
  by_cases hij : i = j
  · subst hij
    rw [List.getElem?_set_eq_of_lt _ hlt, h]
    simp [hp, hc]
  · rw [List.getElem?_set_ne hij]
    exact ⟨rfl, rfl⟩

lemma linkDelta_of_ne (tD st : ℝ) (src tgt : Node) (hd : dist src tgt ≠ 0) :
    linkDelta tD st src tgt =
      ⟨linkFx tD st src tgt, linkFy tD st src tgt, linkFz tD st src tgt⟩ := by
  unfold linkDelta linkFx linkFy linkFz linkForce
  rw [if_neg hd]
  refine Vec3.ext ?_ ?_ ?_ <;> · simp only; ring

lemma linkDelta_of_zero (tD st : ℝ) (src tgt : Node) (hd : dist src tgt = 0) :
    linkDelta tD st src tgt = ⟨0, 0, 0⟩ := by
  unfold linkDelta
  rw [if_pos hd]

/-- Destructuring a successful single-link update: the indices were in range
and the result is either the unchanged array (coincident endpoints) or the
two sequential velocity writes of the source. -/
lemma applyLink_eq_some {nodes : List Node} {lk : Link} {tD st : ℝ} {r : List Node}
    (h : applyLink nodes lk tD st = some r) :
    ∃ src tgt,
      nodes[lk.source.toNat]? = some src ∧ nodes[lk.target.toNat]? = some tgt ∧
      linkInRange nodes.length lk ∧
      ((¬ 0 < dist src tgt ∧ r = nodes) ∨
        (0 < dist src tgt ∧ ∃ tgt1,
          (nodes.set lk.source.toNat (srcUpd tD st src tgt))[lk.target.toNat]? = some tgt1 ∧
          r = (nodes.set lk.source.toNat (srcUpd tD st src tgt)).set lk.target.toNat
                (tgtUpd tD st src tgt tgt1))) := by
  simp only [applyLink, Option.bind_eq_bind, Option.bind_eq_some] at h
  obtain ⟨s, hs, t, ht, src, hsrc, tgt, htgt, h⟩ := h
  obtain ⟨⟨hs1, hs2⟩, rfl⟩ := idx?_eq_some.mp hs
  obtain ⟨⟨ht1, ht2⟩, rfl⟩ := idx?_eq_some.mp ht
  refine ⟨src, tgt, hsrc, htgt, ⟨hs1, hs2, ht1, ht2⟩, ?_⟩
  by_cases hd : 0 < dist src tgt
  · rw [if_pos hd] at h
    simp only [Option.bind_eq_bind, Option.bind_eq_some, Option.pure_def,
      Option.some_inj] at h
    obtain ⟨tgt1, h1, h2⟩ := h
    exact Or.inr ⟨hd, tgt1, h1, h2.symm⟩
  · rw [if_neg hd] at h
    simp only [Option.pure_def, Option.some_inj] at h
    exact Or.inl ⟨hd, h.symm⟩

/-- A single-link update with in-range indices succeeds and performs exactly
the spec-language equal-and-opposite velocity update on the two endpoints. -/
lemma applyLink_spec (nodes : List Node) (lk : Link) (tD st : ℝ)
    (hin : linkInRange nodes.length lk) :
    ∃ r, applyLink nodes lk tD st = some r ∧
      r.length = nodes.length ∧
      ∀ m nm, nodes[m]? = some nm →
        r[m]? = some (linkUpd tD st (nodes.get ⟨lk.source.toNat, hin.2.1⟩)
          (nodes.get ⟨lk.target.toNat, hin.2.2.2⟩) lk.source.toNat lk.target.toNat m nm) := by
  obtain ⟨hs1, hs2, ht1, ht2⟩ := hin
  set srcN := nodes.get ⟨lk.source.toNat, hs2⟩ with hsrcN
  set tgtN := nodes.get ⟨lk.target.toNat, ht2⟩ with htgtN
  have hsrc : nodes[lk.source.toNat]? = some srcN := by
    rw [List.getElem?_eq_getElem hs2, hsrcN, List.get_eq_getElem]
  have htgt : nodes[lk.target.toNat]? = some tgtN := by
    rw [List.getElem?_eq_getElem ht2, htgtN, List.get_eq_getElem]
  have hidxs : idx? nodes.length lk.source = some lk.source.toNat :=
    idx?_eq_some.mpr ⟨⟨hs1, hs2⟩, rfl⟩
  have hidxt : idx? nodes.length lk.target = some lk.target.toNat :=
    idx?_eq_some.mpr ⟨⟨ht1, ht2⟩, rfl⟩
  by_cases hd : 0 < dist srcN tgtN
  · have hst : lk.source.toNat ≠ lk.target.toNat := by
      intro he
      have heq : srcN = tgtN := by
        rw [hsrcN, htgtN]
        congr 1
        exact Fin.ext he
      rw [heq, dist_self] at hd
      exact lt_irrefl 0 hd
    have hnodes1 :
        (nodes.set lk.source.toNat (srcUpd tD st srcN tgtN))[lk.target.toNat]? = some tgtN := by
      rw [List.getElem?_set_ne hst, htgt]
    refine ⟨(nodes.set lk.source.toNat (srcUpd tD st srcN tgtN)).set lk.target.toNat
      (tgtUpd tD st srcN tgtN tgtN), ?_, ?_, ?_⟩
    · simp only [applyLink, hidxs, hidxt, hsrc, htgt, Option.bind_eq_bind, Option.some_bind]
      rw [if_pos hd]
      simp only [hnodes1, Option.some_bind, Option.pure_def]
    · rw [List.length_set, List.length_set]
    · intro m nm hm
      by_cases hms : m = lk.source.toNat
      · subst hms
        have hnm : nm = srcN := by
          rw [hm] at hsrc
          exact Option.some.inj hsrc
        subst hnm
        rw [List.getElem?_set_ne (Ne.symm hst), List.getElem?_set_eq_of_lt _ hs2]
        unfold srcUpd linkUpd
        rw [linkDelta_of_ne tD st srcN tgtN (ne_of_gt hd)]
        refine congrArg some (Node.ext rfl ?_ rfl)
        refine Vec3.ext ?_ ?_ ?_ <;> simp [hst]
      · by_cases hmt : m = lk.target.toNat
        · subst hmt
          have hnm : nm = tgtN := by
            rw [hm] at htgt
            exact Option.some.inj htgt
          subst hnm
          rw [List.getElem?_set_eq_of_lt _ (by rw [List.length_set]; exact ht2)]
          unfold tgtUpd linkUpd
          rw [linkDelta_of_ne tD st srcN tgtN (ne_of_gt hd)]
          refine congrArg some (Node.ext rfl ?_ rfl)
          refine Vec3.ext ?_ ?_ ?_ <;> simp [hms]
        · rw [List.getElem?_set_ne (fun h => hmt h.symm),
              List.getElem?_set_ne (fun h => hms h.symm), hm]
          unfold linkUpd
          refine congrArg some (Node.ext rfl ?_ rfl)
          refine Vec3.ext ?_ ?_ ?_ <;> · simp [hms, hmt]
  · have hd0 : dist srcN tgtN = 0 := le_antisymm (not_lt.mp hd) (dist_nonneg srcN tgtN)
    refine ⟨nodes, ?_, rfl, ?_⟩
    · simp only [applyLink, hidxs, hidxt, hsrc, htgt, Option.bind_eq_bind, Option.some_bind]
      rw [if_neg hd]
      rfl
    · intro m nm hm
      rw [hm]
      unfold linkUpd
      rw [linkDelta_of_zero tD st srcN tgtN hd0]
      refine congrArg some (Node.ext rfl ?_ rfl)
      refine Vec3.ext ?_ ?_ ?_ <;> simp

lemma applyLink_sameGeom {nodes : List Node} {lk : Link} {tD st : ℝ} {r : List Node}
    (h : applyLink nodes lk tD st = some r) : sameGeom r nodes := by
  obtain ⟨src, tgt, hsrc, htgt, hin, hcase⟩ := applyLink_eq_some h
  rcases hcase with ⟨_, rfl⟩ | ⟨hd, tgt1, h1, rfl⟩
  · exact sameGeom_refl _
  · exact sameGeom_trans (sameGeom_set h1 rfl rfl) (sameGeom_set hsrc rfl rfl)

lemma applyLink_none_of_not_inRange {nodes : List Node} {lk : Link} (tD st : ℝ)
    (h : ¬ linkInRange nodes.length lk) : applyLink nodes lk tD st = none := by
  cases hal : applyLink nodes lk tD st with
  | none => rfl
  | some r =>
    obtain ⟨_, _, _, _, hin, _⟩ := applyLink_eq_some hal
    exact absurd hin h

/-- The link phase succeeds exactly when every link is in range and both
constraint arrays are at least as long as the link array. -/
lemma linkLoop_ok_iff (links : List Link) (ds ss : List ℝ) (nodes : List Node) :
    (∃ r, linkLoop links ds ss nodes = .ok r) ↔
      ((∀ lk ∈ links, linkInRange nodes.length lk) ∧
        links.length ≤ ds.length ∧ links.length ≤ ss.length) := by
  induction links generalizing ds ss nodes with
  | nil => simp [linkLoop]
  | cons lk rest ih =>
    cases ds with
    | nil => simp [linkLoop]
    | cons d ds =>
      cases ss with
      | nil => simp [linkLoop]
      | cons st sts =>
        constructor
        · rintro ⟨r, hr⟩
          unfold linkLoop at hr
          cases hal : applyLink nodes lk d st with
          | none => rw [hal] at hr; exact absurd hr (by simp)
          | some nodes' =>
            rw [hal] at hr
            have hgeo := applyLink_sameGeom hal
            obtain ⟨_, _, _, _, hin, _⟩ := applyLink_eq_some hal
            obtain ⟨hall, hlend, hlens⟩ := (ih ds sts nodes').mp ⟨r, hr⟩
            refine ⟨?_, by simpa using hlend, by simpa using hlens⟩
            intro l hl
            rcases List.mem_cons.mp hl with rfl | hl
            · exact hin
            · have hx := hall l hl
              rwa [hgeo.1] at hx
        · rintro ⟨hall, hlend, hlens⟩
          have hin : linkInRange nodes.length lk := hall lk (List.mem_cons_self lk rest)
          obtain ⟨r1, hr1, hlen1, _⟩ := applyLink_spec nodes lk d st hin
          have hall' : ∀ l ∈ rest, linkInRange r1.length l := by
            intro l hl
            rw [hlen1]
            exact hall l (List.mem_cons_of_mem lk hl)
          obtain ⟨r, hr⟩ := (ih ds sts r1).mpr
            ⟨hall', by simpa using hlend, by simpa using hlens⟩
          refine ⟨r, ?_⟩
          unfold linkLoop
          rw [hr1]
          exact hr

lemma linkLoop_sameGeom {links : List Link} {ds ss : List ℝ} {nodes r : List Node}
    (h : linkLoop links ds ss nodes = .ok r) : sameGeom r nodes := by
  induction links generalizing ds ss nodes with
  | nil =>
    unfold linkLoop at h
    cases Except.ok.inj h
    exact sameGeom_refl _
  | cons lk rest ih =>
    cases ds with
    | nil => exact absurd h (by simp [linkLoop])
    | cons d ds =>
      cases ss with
      | nil => exact absurd h (by simp [linkLoop])
      | cons st sts =>
        unfold linkLoop at h
        cases hal : applyLink nodes lk d st with
        | none => rw [hal] at h; exact absurd h (by simp)
        | some nodes' =>
          rw [hal] at h
          exact sameGeom_trans (ih h) (applyLink_sameGeom hal)

lemma repulsionPhase_sameGeom (nodes : List Node) (maxD : ℝ) :
    sameGeom (repulsionPhase nodes maxD) nodes := by
  refine ⟨repulsionPhase_length nodes maxD, ?_⟩
  intro j
  rw [repulsionPhase_getElem?]
  cases hj : nodes[j]? <;> simp [updNode]

lemma integrationPhase_getElem? (nodes : List Node) (decay : ℝ) (j : ℕ) :
    (integrationPhase nodes decay)[j]? = (nodes[j]?).map (integrateNode decay) := by
  unfold integrationPhase
  exact List.getElem?_map (integrateNode decay) nodes j

lemma integrationPhase_length (nodes : List Node) (decay : ℝ) :
    (integrationPhase nodes decay).length = nodes.length := by
  unfold integrationPhase
  exact List.length_map nodes (integrateNode decay)

lemma integrateNode_charge (decay : ℝ) (n : Node) :
    (integrateNode decay n).charge = n.charge := rfl

/-- `step()` returns `.ok` exactly on valid topologies. -/
lemma step_ok_iff (s : ForceSimulation) :
    (∃ s', s.step = .ok s') ↔ validTopology s := by
  have hgeom := repulsionPhase_sameGeom s.nodes s.maxDistance
  have hiff := linkLoop_ok_iff s.links s.distances s.strengths
      (repulsionPhase s.nodes s.maxDistance)
  rw [hgeom.1] at hiff
  constructor
  · rintro ⟨s', hs'⟩
    unfold ForceSimulation.step at hs'
    cases hll : linkLoop s.links s.distances s.strengths
        (repulsionPhase s.nodes s.maxDistance) with
    | error e => rw [hll] at hs'; exact absurd hs' (by simp)
    | ok r => exact hiff.mp ⟨r, hll⟩
  · intro hv
    obtain ⟨r, hll⟩ := hiff.mpr hv
    refine ⟨{ s with nodes := integrationPhase r s.velocityDecay }, ?_⟩
    unfold ForceSimulation.step
    rw [hll]

/-- Destructuring a successful `step()`: only `nodes` changes, to the
integration of the link-phase output. -/
lemma step_ok_elim {s s' : ForceSimulation} (h : s.step = .ok s') :
    ∃ r, linkLoop s.links s.distances s.strengths
        (repulsionPhase s.nodes s.maxDistance) = .ok r ∧
      s' = { s with nodes := integrationPhase r s.velocityDecay } := by
  unfold ForceSimulation.step at h
  cases hll : linkLoop s.links s.distances s.strengths
      (repulsionPhase s.nodes s.maxDistance) with
  | error e => rw [hll] at h; exact absurd h (by simp)
  | ok r =>
    rw [hll] at h
    cases Except.ok.inj h
    exact ⟨r, rfl, rfl⟩

lemma safeDiv_of_ne {a b : ℝ} (h : b ≠ 0) : safeDiv a b = some (a / b) := if_neg h

lemma pairStepChecked_eq (maxD : ℝ) (ni nj : Node) (f : Vec3) :
    pairStepChecked maxD ni nj f = some (pairStep maxD ni nj f) := by
  unfold pairStepChecked pairStep repulsionMag
  by_cases h : 0 < dist ni nj ∧ dist ni nj < maxD
  · have hd : dist ni nj ≠ 0 := ne_of_gt h.1
    have hdd : dist ni nj * dist ni nj ≠ 0 := mul_ne_zero hd hd
    rw [if_pos h, if_pos h]
    simp only [safeDiv_of_ne hdd, safeDiv_of_ne hd, Option.bind_eq_bind, Option.some_bind,
      Option.pure_def, Option.some_inj]
  · rw [if_neg h, if_neg h]
    rfl

lemma foldl_bind_eq {α β : Type} (l : List β) (f : α → β → α) (fc : α → β → Option α)
    (hf : ∀ a : α, ∀ b ∈ l, fc a b = some (f a b)) :
    ∀ init : α, l.foldl (fun acc b => acc.bind fun a => fc a b) (some init) =
      some (l.foldl f init) := by
  induction l with
  | nil => intro init; rfl
  | cons b l ih =>
    intro init
    rw [List.foldl_cons, List.foldl_cons]
    have h1 : (some init).bind (fun a => fc a b) = some (f init b) := by
      rw [Option.some_bind, hf init b (List.mem_cons_self b l)]
    rw [h1]
    exact ih (fun a c hc => hf a c (List.mem_cons_of_mem b hc)) (f init b)

lemma repulsionForceChecked_eq (nodes : List Node) (maxD : ℝ) (i : ℕ) (ni : Node) :
    repulsionForceChecked nodes maxD i ni = some (repulsionForce nodes maxD i ni) := by
  unfold repulsionForceChecked repulsionForce
  refine foldl_bind_eq (List.range nodes.length)
    (fun force j =>
      if i ≠ j then
        match nodes[j]? with
        | some nj => pairStep maxD ni nj force
        | none => force
      else force)
    (fun force j =>
      if i ≠ j then
        match nodes[j]? with
        | some nj => pairStepChecked maxD ni nj force
        | none => pure force
      else pure force)
    ?_ ⟨0, 0, 0⟩
  intro a b _
  by_cases hib : i ≠ b
  · simp only [if_pos hib]
    cases hnb : nodes[b]? with
    | some nj => exact pairStepChecked_eq maxD ni nj a
    | none => rfl
  · simp only [if_neg hib]
    rfl

lemma repulsionStepChecked_eq (maxD : ℝ) (cur : List Node) (i : ℕ) :
    repulsionStepChecked maxD cur i = some (repulsionStep maxD cur i) := by
  unfold repulsionStepChecked repulsionStep
  cases hci : cur[i]? with
  | none => rfl
  | some ni =>
    simp only [repulsionForceChecked_eq, Option.some_bind, Option.pure_def]

lemma repulsionPhaseChecked_eq (nodes : List Node) (maxD : ℝ) :
    repulsionPhaseChecked nodes maxD = some (repulsionPhase nodes maxD) := by
  unfold repulsionPhaseChecked repulsionPhase
  exact foldl_bind_eq (List.range nodes.length) (repulsionStep maxD)
    (fun cur i => repulsionStepChecked maxD cur i)
    (fun a b _ => repulsionStepChecked_eq maxD a b) nodes

lemma applyLinkChecked_eq (nodes : List Node) (lk : Link) (tD st : ℝ) :
    applyLinkChecked nodes lk tD st = applyLink nodes lk tD st := by
  unfold applyLinkChecked applyLink
  cases hs : idx? nodes.length lk.source with
  | none => rfl
  | some s =>
    simp only [Option.bind_eq_bind, Option.some_bind]
    cases ht : idx? nodes.length lk.target with
    | none => rfl
    | some t =>
      simp only [Option.some_bind]
      cases hsrc : nodes[s]? with
      | none => rfl
      | some src =>
        simp only [Option.some_bind]
        cases htgt : nodes[t]? with
        | none => rfl
        | some tgt =>
          simp only [Option.some_bind]
          by_cases hd : 0 < dist src tgt
          · have hdne : dist src tgt ≠ 0 := ne_of_gt hd
            rw [if_pos hd, if_pos hd]
            simp only [safeDiv_of_ne hdne, Option.some_bind]
            unfold srcUpd tgtUpd linkFx linkFy linkFz
            rfl
          · rw [if_neg hd, if_neg hd]

lemma linkLoopChecked_ok {links : List Link} {ds ss : List ℝ} {nodes r : List Node}
    (h : linkLoop links ds ss nodes = .ok r) :
    linkLoopChecked links ds ss nodes = some r := by
  induction links generalizing ds ss nodes with
  | nil =>
    unfold linkLoop at h
    cases Except.ok.inj h
    rfl
  | cons lk rest ih =>
    cases ds with
    | nil => exact absurd h (by simp [linkLoop])
    | cons d ds =>
      cases ss with
      | nil => exact absurd h (by simp [linkLoop])
      | cons st sts =>
        unfold linkLoop at h
        unfold linkLoopChecked
        rw [applyLinkChecked_eq]
        cases hal : applyLink nodes lk d st with
        | none => rw [hal] at h; exact absurd h (by simp)
        | some nodes' =>
          rw [hal] at h
          exact ih h

/-- On a successful `step()`, the fully division-checked mirror succeeds with
the same result: no division by zero is ever attempted. -/
lemma stepChecked_ok {s s' : ForceSimulation} (h : s.step = .ok s') :
    s.stepChecked = some s' := by
  obtain ⟨r, hll, hs'⟩ := step_ok_elim h
  unfold ForceSimulation.stepChecked
  rw [repulsionPhaseChecked_eq]
  simp only [Option.bind_eq_bind, Option.some_bind]
  rw [linkLoopChecked_ok hll]
  simp only [Option.some_bind, Option.pure_def, Option.some_inj]
  exact hs'.symm

lemma repulsionForce_single (maxD : ℝ) (n ni : Node) :
    repulsionForce [n] maxD 0 ni = ⟨0, 0, 0⟩ := by
  unfold repulsionForce
  rw [show List.range ([n].length) = [0] from rfl, List.foldl_cons, List.foldl_nil]
  simp

/-- One `step()` on a single node with no links: the position gains the full
pre-decay velocity, then the velocity is scaled by `velocityDecay`. -/
lemma step_single (s : ForceSimulation) (n : Node) (hn : s.nodes = [n]) (hl : s.links = []) :
    s.step = .ok { s with nodes :=
      [{ position := ⟨n.position.x + n.velocity.x, n.position.y + n.velocity.y,
                      n.position.z + n.velocity.z⟩,
         velocity := ⟨n.velocity.x * s.velocityDecay, n.velocity.y * s.velocityDecay,
                      n.velocity.z * s.velocityDecay⟩,
         charge := n.charge }] } := by
  have hrep : repulsionPhase s.nodes s.maxDistance = [n] := by
    rw [hn]
    unfold repulsionPhase
    rw [show List.range (([n] : List Node).length) = [0] from rfl, List.foldl_cons,
      List.foldl_nil]
    simp [repulsionStep, repulsionForce_single]
  unfold ForceSimulation.step
  rw [hrep, hl]
  simp [linkLoop, integrationPhase, integrateNode]

lemma sum_range_succ_mul (d : ℝ) (k : ℕ) :
    ∑ j in Finset.range (k + 1), d ^ j = (∑ j in Finset.range k, d ^ j) * d + 1 := by
  rw [Finset.sum_range_succ']
  simp only [pow_succ, pow_zero]
  rw [← Finset.sum_mul]

/-- Closed form of repeated stepping on a single node with no links. -/
lemma stepN_single (s : ForceSimulation) (n : Node) (hn : s.nodes = [n])
    (hl : s.links = []) :
    ∀ k, stepN k s = .ok { s with nodes := [singleNodeAt s.velocityDecay n k] } := by
  intro k
  induction k generalizing s n with
  | zero =>
    have h0 : singleNodeAt s.velocityDecay n 0 = n := by
      unfold singleNodeAt
      refine Node.ext ?_ ?_ rfl
      · refine Vec3.ext ?_ ?_ ?_ <;> simp
      · refine Vec3.ext ?_ ?_ ?_ <;> simp
    unfold stepN
    rw [h0, ← hn]
  | succ k ih =>
    set n1 : Node :=
      { position := ⟨n.position.x + n.velocity.x, n.position.y + n.velocity.y,
                     n.position.z + n.velocity.z⟩,
        velocity := ⟨n.velocity.x * s.velocityDecay, n.velocity.y * s.velocityDecay,
                     n.velocity.z * s.velocityDecay⟩,
        charge := n.charge } with hn1
    have key : singleNodeAt s.velocityDecay n1 k = singleNodeAt s.velocityDecay n (k + 1) := by
      rw [hn1]
      unfold singleNodeAt
      refine Node.ext ?_ ?_ rfl
      · refine Vec3.ext ?_ ?_ ?_ <;>
        · simp only
          rw [sum_range_succ_mul]
          ring
      · refine Vec3.ext ?_ ?_ ?_ <;>
        · simp only
          rw [pow_succ]
          ring
    have hstep := step_single s n hn hl
    rw [← hn1] at hstep
    have hih := ih { s with nodes := [n1] } n1 rfl hl
    unfold stepN
    simp only [hstep]
    rw [hih]
    show Except.ok { s with nodes := [singleNodeAt s.velocityDecay n1 k] } =
      Except.ok { s with nodes := [singleNodeAt s.velocityDecay n (k + 1)] }
    rw [key]

lemma mag_mul (c : ℝ) (v : Vec3) :
    Vec3.mag ⟨c * v.x, c * v.y, c * v.z⟩ = |c| * Vec3.mag v := by
  unfold Vec3.mag
  have h : c * v.x * (c * v.x) + c * v.y * (c * v.y) + c * v.z * (c * v.z) =
      (c * c) * (v.x * v.x + v.y * v.y + v.z * v.z) := by ring
  rw [h, Real.sqrt_mul (mul_self_nonneg c), Real.sqrt_mul_self_eq_abs]

lemma list_eq_two {α : Type} {l : List α} {a b : α} (hlen : l.length = 2)
    (h0 : l[0]? = some a) (h1 : l[1]? = some b) : l = [a, b] := by
  obtain ⟨x, y, rfl⟩ := List.length_eq_two.mp hlen
  simp only [List.getElem?_cons_zero, Option.some_inj] at h0
  simp only [List.getElem?_cons_succ, List.getElem?_cons_zero, Option.some_inj] at h1
  rw [h0, h1]

lemma dist_AB : dist nodeA nodeB = 1 := by
  unfold dist disp nodeA nodeB
  norm_num [Real.sqrt_one]

lemma dist_BA : dist nodeB nodeA = 1 := by
  unfold dist disp nodeA nodeB
  norm_num [Real.sqrt_one]

lemma pairStep_AB (f : Vec3) : pairStep 100 nodeA nodeB f = ⟨f.x + 1, f.y, f.z⟩ := by
  unfold pairStep repulsionMag
  rw [dist_AB, if_pos (by norm_num : (0:ℝ) < 1 ∧ (1:ℝ) < 100)]
  refine Vec3.ext ?_ ?_ ?_ <;> · norm_num [disp, nodeA, nodeB]

lemma pairStep_BA (f : Vec3) : pairStep 100 nodeB nodeA f = ⟨f.x + -1, f.y, f.z⟩ := by
  unfold pairStep repulsionMag
  rw [dist_BA, if_pos (by norm_num : (0:ℝ) < 1 ∧ (1:ℝ) < 100)]
  refine Vec3.ext ?_ ?_ ?_ <;> · norm_num [disp, nodeA, nodeB]

lemma repForce_A : repulsionForce [nodeA, nodeB] 100 0 nodeA = ⟨1, 0, 0⟩ := by
  unfold repulsionForce
  rw [show List.range (([nodeA, nodeB] : List Node).length) = [0, 1] from rfl,
    List.foldl_cons, List.foldl_cons, List.foldl_nil]
  norm_num [pairStep_AB]

lemma repForce_B : repulsionForce [nodeA, nodeB] 100 1 nodeB = ⟨-1, 0, 0⟩ := by
  unfold repulsionForce
  rw [show List.range (([nodeA, nodeB] : List Node).length) = [0, 1] from rfl,
    List.foldl_cons, List.foldl_cons, List.foldl_nil]
  norm_num [pairStep_BA]

/-- The repulsion phase on the two unit charges one unit apart: the node at
the origin is pushed toward its neighbour (the charge product arithmetic of
the source attracts like charges), the other node the opposite way. -/
lemma repulsionPhase_simTwo :
    repulsionPhase [nodeA, nodeB] 100 =
      [{ position := ⟨0, 0, 0⟩, velocity := ⟨1, 0, 0⟩, charge := 1 },
       { position := ⟨1, 0, 0⟩, velocity := ⟨-1, 0, 0⟩, charge := 1 }] := by
  refine list_eq_two ?_ ?_ ?_
  · rw [repulsionPhase_length]
    rfl
  · rw [repulsionPhase_getElem?, show ([nodeA, nodeB] : List Node)[0]? = some nodeA from rfl]
    simp only [Option.map_some']
    unfold updNode
    rw [repForce_A]
    norm_num [nodeA]
  · rw [repulsionPhase_getElem?, show ([nodeA, nodeB] : List Node)[1]? = some nodeB from rfl]
    simp only [Option.map_some']
    unfold updNode
    rw [repForce_B]
    norm_num [nodeB]

/-- One full `step()` on the two-charge configuration. -/
lemma step_simTwo (d : ℝ) :
    (simTwo d).step = .ok { simTwo d with nodes :=
      [{ position := ⟨1, 0, 0⟩, velocity := ⟨d, 0, 0⟩, charge := 1 },
       { position := ⟨0, 0, 0⟩, velocity := ⟨-d, 0, 0⟩, charge := 1 }] } := by
  unfold ForceSimulation.step
  rw [show (simTwo d).nodes = [nodeA, nodeB] from rfl,
    show (simTwo d).maxDistance = 100 from rfl, repulsionPhase_simTwo,
    show (simTwo d).links = [] from rfl]
  simp only [linkLoop]
  rw [show (simTwo d).velocityDecay = d from rfl]
  unfold integrationPhase integrateNode
  norm_num
  exact ⟨rfl, rfl⟩

/-- C1 (amended): `step()` performs no up-front validation and raises no
typed errors; it completes without reaching an unchecked out-of-range access
exactly when every link's source and target index is in range and the
distances and strengths arrays are each at least as long as the links array
(longer constraint arrays are accepted).  On a fault the repulsion phase has
already run, so node state is not rolled back. -/
theorem C1_step_ok_iff_validTopology (s : ForceSimulation) :
    (∃ s', s.step = .ok s') ↔ validTopology s :=
  step_ok_iff s

/-- C1 counterexample: on `simBad` (two charged nodes and one link whose
target index equals the node count) `step()` faults, yet the node state
visible after the failed step differs from the state before it — the
repulsion phase already changed both velocities, refuting the claimed
validate-before-any-mutation behavior. -/
theorem C1_counterexample :
    ∃ f, simBad.step = .error f ∧
      f.nodes.map Node.velocity ≠ simBad.nodes.map Node.velocity := by
  refine ⟨{ simBad with nodes :=
    [{ position := ⟨0, 0, 0⟩, velocity := ⟨1, 0, 0⟩, charge := 1 },
     { position := ⟨1, 0, 0⟩, velocity := ⟨-1, 0, 0⟩, charge := 1 }] }, ?_, ?_⟩
  · unfold ForceSimulation.step
    rw [show simBad.nodes = [nodeA, nodeB] from rfl,
      show simBad.maxDistance = 100 from rfl, repulsionPhase_simTwo,
      show simBad.links = [{ source := 0, target := 2 }] from rfl,
      show simBad.distances = [1] from rfl,
      show simBad.strengths = [1] from rfl]
    have hap : applyLink
        [{ position := ⟨0, 0, 0⟩, velocity := ⟨1, 0, 0⟩, charge := 1 },
         { position := ⟨1, 0, 0⟩, velocity := ⟨-1, 0, 0⟩, charge := 1 }]
        { source := 0, target := 2 } 1 1 = none :=
      applyLink_none_of_not_inRange 1 1 (by decide)
    simp only [linkLoop, hap]
    rfl
  · simp [simBad, nodeA, nodeB]

/-- C2: in the repulsion phase every node keeps its position and charge, and
its velocity gains, for each other index `j`, exactly
`charge_i·charge_j/d²` times the unit vector from node `i` toward node `j`
when `0 < d < maxDistance`, and nothing when `d = 0` or `d ≥ maxDistance`
(`pairDelta`); all contributions are computed from the positions as they
stood before the phase began — the phase does not modify positions. -/
theorem C2_repulsion_phase (nodes : List Node) (maxD : ℝ) (i : ℕ) (ni : Node)
    (h : nodes[i]? = some ni) :
    (repulsionPhase nodes maxD)[i]? = some
      { position := ni.position,
        velocity :=
          ⟨ni.velocity.x + ∑ j : Fin nodes.length,
             (if i = (j : ℕ) then (⟨0, 0, 0⟩ : Vec3) else pairDelta maxD ni (nodes.get j)).x,
           ni.velocity.y + ∑ j : Fin nodes.length,
             (if i = (j : ℕ) then (⟨0, 0, 0⟩ : Vec3) else pairDelta maxD ni (nodes.get j)).y,
           ni.velocity.z + ∑ j : Fin nodes.length,
             (if i = (j : ℕ) then (⟨0, 0, 0⟩ : Vec3) else pairDelta maxD ni (nodes.get j)).z⟩,
        charge := ni.charge } := by
  rw [repulsionPhase_getElem?, h]
  simp only [Option.map_some']
  unfold updNode
  rw [repulsionForce_eq_sum]

/-- Witness for C2: the two-charge configuration, outer index `0`. -/
theorem C2_witness :
    ([nodeA, nodeB] : List Node)[0]? = some nodeA ∧
    (repulsionPhase [nodeA, nodeB] 100)[0]? = some
      { position := nodeA.position,
        velocity :=
          ⟨nodeA.velocity.x + ∑ j : Fin ([nodeA, nodeB] : List Node).length,
             (if 0 = (j : ℕ) then (⟨0, 0, 0⟩ : Vec3)
              else pairDelta 100 nodeA (([nodeA, nodeB] : List Node).get j)).x,
           nodeA.velocity.y + ∑ j : Fin ([nodeA, nodeB] : List Node).length,
             (if 0 = (j : ℕ) then (⟨0, 0, 0⟩ : Vec3)
              else pairDelta 100 nodeA (([nodeA, nodeB] : List Node).get j)).y,
           nodeA.velocity.z + ∑ j : Fin ([nodeA, nodeB] : List Node).length,
             (if 0 = (j : ℕ) then (⟨0, 0, 0⟩ : Vec3)
              else pairDelta 100 nodeA (([nodeA, nodeB] : List Node).get j)).z⟩,
        charge := nodeA.charge } :=
  ⟨rfl, C2_repulsion_phase [nodeA, nodeB] 100 0 nodeA rfl⟩

/-- C3: a link with in-range endpoints updates only the two endpoint
velocities: when the distance is nonzero, `strength·(d - targetDistance)`
times the unit direction from source to target is added to the source
velocity and the exact same vector subtracted from the target velocity
(equal and opposite); a zero distance contributes nothing, and at
`d = targetDistance` the force vector is zero.  Positions and charges are
unchanged and so is the array length. -/
theorem C3_link_phase (nodes : List Node) (lk : Link) (tD st : ℝ)
    (hin : linkInRange nodes.length lk) :
    ∃ r, applyLink nodes lk tD st = some r ∧
      r.length = nodes.length ∧
      ∀ m nm, nodes[m]? = some nm →
        r[m]? = some (linkUpd tD st (nodes.get ⟨lk.source.toNat, hin.2.1⟩)
          (nodes.get ⟨lk.target.toNat, hin.2.2.2⟩) lk.source.toNat lk.target.toNat m nm) :=
  applyLink_spec nodes lk tD st hin

/-- Witness for C3: the link `0 → 1` with rest length `1` and stiffness `2`
between the two test nodes. -/
theorem C3_witness :
    linkInRange ([nodeA, nodeB] : List Node).length { source := 0, target := 1 } ∧
    ∃ r, applyLink [nodeA, nodeB] { source := 0, target := 1 } 1 2 = some r ∧
      r.length = ([nodeA, nodeB] : List Node).length ∧
      ∀ m nm, ([nodeA, nodeB] : List Node)[m]? = some nm →
        r[m]? = some (linkUpd 1 2 nodeA nodeB 0 1 m nm) := by
  have hin : linkInRange ([nodeA, nodeB] : List Node).length { source := 0, target := 1 } := by
    decide
  exact ⟨hin, C3_link_phase [nodeA, nodeB] { source := 0, target := 1 } 1 2 hin⟩

/-- C4: the integration phase maps every node to `position + velocity` using
the post-force, pre-decay velocity, and only afterwards scales the velocity
by `velocityDecay`; consequently with `velocityDecay = 0` a single node with
no links ends one `step()` displaced by exactly its full pre-decay velocity,
with velocity exactly zero. -/
theorem C4_integration_order (nodes : List Node) (decay : ℝ)
    (s : ForceSimulation) (n : Node)
    (hn : s.nodes = [n]) (hl : s.links = []) (hd : s.velocityDecay = 0) :
    (∀ j : ℕ, (integrationPhase nodes decay)[j]? = (nodes[j]?).map (fun m =>
      { position := ⟨m.position.x + m.velocity.x, m.position.y + m.velocity.y,
                     m.position.z + m.velocity.z⟩,
        velocity := ⟨m.velocity.x * decay, m.velocity.y * decay, m.velocity.z * decay⟩,
        charge := m.charge })) ∧
    s.step = .ok { s with nodes :=
      [{ position := ⟨n.position.x + n.velocity.x, n.position.y + n.velocity.y,
                      n.position.z + n.velocity.z⟩,
         velocity := ⟨0, 0, 0⟩, charge := n.charge }] } := by
  constructor
  · intro j
    rw [integrationPhase_getElem?]
    cases nodes[j]? <;> rfl
  · have h := step_single s n hn hl
    rw [h, hd]
    simp

/-- Witness for C4: `nodeV` at position `(1,2,3)` with velocity `(4,5,6)` and
`velocityDecay = 0` ends at `(5,7,9)` with zero velocity. -/
theorem C4_witness :
    (simOne 0).nodes = [nodeV] ∧ (simOne 0).links = [] ∧
    (simOne 0).velocityDecay = 0 ∧
    (simOne 0).step = .ok { simOne 0 with nodes :=
      [{ position := ⟨5, 7, 9⟩, velocity := ⟨0, 0, 0⟩, charge := 7 }] } := by
  refine ⟨rfl, rfl, rfl, ?_⟩
  have h := (C4_integration_order [nodeV] 0 (simOne 0) nodeV rfl rfl rfl).2
  norm_num [nodeV] at h
  exact h

/-- C6: `step()` is deterministic — two engine instances with equal
configuration and equal node, link, distance and strength arrays produce
equal `step()` results, in particular equal node states. -/
theorem C6_deterministic (s1 s2 : ForceSimulation)
    (hn : s1.nodes = s2.nodes) (hl : s1.links = s2.links)
    (hd : s1.distances = s2.distances) (hs : s1.strengths = s2.strengths)
    (hm : s1.maxDistance = s2.maxDistance) (hv : s1.velocityDecay = s2.velocityDecay) :
    s1.step = s2.step ∧
    Except.map ForceSimulation.getNodes s1.step =
      Except.map ForceSimulation.getNodes s2.step := by
  have h : s1 = s2 := ForceSimulation.ext hn hl hd hs hm hv
  rw [h]
  exact ⟨rfl, rfl⟩

/-- Witness for C6: two syntactically distinct but equal empty engines. -/
theorem C6_witness :
    simNil.step =
      (ForceSimulation.mk [] [] [] [] 100 (1/2)).step ∧
    Except.map ForceSimulation.getNodes simNil.step =
      Except.map ForceSimulation.getNodes (ForceSimulation.mk [] [] [] [] 100 (1/2)).step :=
  C6_deterministic simNil (ForceSimulation.mk [] [] [] [] 100 (1/2)) rfl rfl rfl rfl rfl rfl

/-- C7 (amended): with exactly one node and no links, each `step()` adds the
current velocity to the position and scales the velocity by `velocityDecay`
(closed form `singleNodeAt`); the position is unchanged by repeated `step()`
when the initial velocity is zero; and when `0 ≤ velocityDecay < 1` the
velocity magnitude is nonincreasing in the step count and tends to zero. -/
theorem C7_single_node (s : ForceSimulation) (n : Node)
    (hn : s.nodes = [n]) (hl : s.links = [])
    (hd0 : 0 ≤ s.velocityDecay) (hd1 : s.velocityDecay < 1) :
    (∀ k, stepN k s = .ok { s with nodes := [singleNodeAt s.velocityDecay n k] }) ∧
    (n.velocity = ⟨0, 0, 0⟩ → ∀ k, stepN k s = .ok s) ∧
    (∀ k, Vec3.mag (singleNodeAt s.velocityDecay n (k + 1)).velocity ≤
      Vec3.mag (singleNodeAt s.velocityDecay n k).velocity) ∧
    Filter.Tendsto (fun k => Vec3.mag (singleNodeAt s.velocityDecay n k).velocity)
      Filter.atTop (nhds 0) := by
  have hmag : ∀ k, Vec3.mag (singleNodeAt s.velocityDecay n k).velocity =
      s.velocityDecay ^ k * Vec3.mag n.velocity := by
    intro k
    rw [show (singleNodeAt s.velocityDecay n k).velocity =
      ⟨s.velocityDecay ^ k * n.velocity.x, s.velocityDecay ^ k * n.velocity.y,
       s.velocityDecay ^ k * n.velocity.z⟩ from rfl]
    rw [mag_mul, abs_of_nonneg (pow_nonneg hd0 k)]
  refine ⟨stepN_single s n hn hl, ?_, ?_, ?_⟩
  · intro hv k
    have h := stepN_single s n hn hl k
    have hkn : singleNodeAt s.velocityDecay n k = n := by
      unfold singleNodeAt
      rw [hv]
      refine Node.ext ?_ ?_ rfl <;> · refine Vec3.ext ?_ ?_ ?_ <;> simp [hv]
    rw [h, hkn, ← hn]
  · intro k
    rw [hmag, hmag, pow_succ]
    have hm : 0 ≤ Vec3.mag n.velocity := Real.sqrt_nonneg _
    have hle : s.velocityDecay ^ k * s.velocityDecay ≤ s.velocityDecay ^ k * 1 :=
      mul_le_mul_of_nonneg_left hd1.le (pow_nonneg hd0 k)
    calc s.velocityDecay ^ k * s.velocityDecay * Vec3.mag n.velocity
        ≤ s.velocityDecay ^ k * 1 * Vec3.mag n.velocity :=
          mul_le_mul_of_nonneg_right hle hm
      _ = s.velocityDecay ^ k * Vec3.mag n.velocity := by ring
  · have ht := (tendsto_pow_atTop_nhds_zero_of_lt_one hd0 hd1).mul_const
      (Vec3.mag n.velocity)
    rw [zero_mul] at ht
    exact Filter.Tendsto.congr (fun k => (hmag k).symm) ht

/-- Witness for C7: the single moving node with damping `1/2`. -/
theorem C7_witness :
    (simOne (1/2)).nodes = [nodeV] ∧ (simOne (1/2)).links = [] ∧
    (0:ℝ) ≤ (simOne (1/2)).velocityDecay ∧ (simOne (1/2)).velocityDecay < 1 ∧
    ((∀ k, stepN k (simOne (1/2)) = .ok { simOne (1/2) with
        nodes := [singleNodeAt (simOne (1/2)).velocityDecay nodeV k] }) ∧
     (nodeV.velocity = ⟨0, 0, 0⟩ → ∀ k, stepN k (simOne (1/2)) = .ok (simOne (1/2))) ∧
     (∀ k, Vec3.mag (singleNodeAt (simOne (1/2)).velocityDecay nodeV (k + 1)).velocity ≤
        Vec3.mag (singleNodeAt (simOne (1/2)).velocityDecay nodeV k).velocity) ∧
     Filter.Tendsto
       (fun k => Vec3.mag (singleNodeAt (simOne (1/2)).velocityDecay nodeV k).velocity)
       Filter.atTop (nhds 0)) :=
  ⟨rfl, rfl, by norm_num [simOne], by norm_num [simOne],
    C7_single_node (simOne (1/2)) nodeV rfl rfl (by norm_num [simOne])
      (by norm_num [simOne])⟩

/-- C7 counterexample: a single node with velocity `(4,5,6)` and damping
`1/2` moves after one `step()` — its position changes from `(1,2,3)` to
`(5,7,9)` — refuting the claim that repeated `step()` leaves a lone node's
position unchanged. -/
theorem C7_counterexample :
    ∃ s', stepN 1 (simOne (1/2)) = .ok s' ∧
      s'.nodes.map Node.position ≠ (simOne (1/2)).nodes.map Node.position := by
  refine ⟨_, stepN_single (simOne (1/2)) nodeV rfl rfl 1, ?_⟩
  norm_num [singleNodeAt, nodeV, simOne, Finset.sum_range_one]

/-- C8 (amended): for the two unit charges at distance one with no links, the
repulsion phase adds velocity deltas `(+1,0,0)` and `(-1,0,0)` — equal in
magnitude `1.0` and exactly opposite along the x-axis; after the full
`step()` (integration applies `velocityDecay` to the velocities) the deltas
are `(±velocityDecay, 0, 0)`: still equal and opposite along x, but of
magnitude `|velocityDecay|`, not `1.0` for arbitrary `velocityDecay`. -/
theorem C8_symmetric_repulsion (d : ℝ) :
    (repulsionPhase [nodeA, nodeB] 100).map Node.velocity =
      [⟨1, 0, 0⟩, ⟨-1, 0, 0⟩] ∧
    (∃ s', (simTwo d).step = .ok s' ∧
      s'.nodes.map Node.velocity = [⟨d, 0, 0⟩, ⟨-d, 0, 0⟩]) ∧
    Vec3.mag ⟨1, 0, 0⟩ = 1 ∧
    Vec3.mag ⟨d, 0, 0⟩ = |d| ∧ Vec3.mag ⟨-d, 0, 0⟩ = |d| := by
  refine ⟨?_, ⟨_, step_simTwo d, rfl⟩, ?_, ?_, ?_⟩
  · rw [repulsionPhase_simTwo]
    rfl
  · unfold Vec3.mag
    norm_num [Real.sqrt_one]
  · unfold Vec3.mag
    rw [show (d * d + 0 * 0 + 0 * 0 : ℝ) = d * d by ring, Real.sqrt_mul_self_eq_abs]
  · unfold Vec3.mag
    rw [show (-d * -d + 0 * 0 + 0 * 0 : ℝ) = d * d by ring, Real.sqrt_mul_self_eq_abs]

/-- C8 counterexample: with `velocityDecay = 0` the post-`step()` velocity
deltas of the two nodes are zero vectors of magnitude `0`, not the claimed
magnitude `1.0` — the claim fails for arbitrary `velocityDecay`. -/
theorem C8_counterexample :
    ∃ s', (simTwo 0).step = .ok s' ∧
      s'.nodes.map Node.velocity = [⟨0, 0, 0⟩, ⟨0, 0, 0⟩] ∧
      Vec3.mag ⟨(0:ℝ), 0, 0⟩ ≠ 1 := by
  refine ⟨_, step_simTwo 0, ?_, ?_⟩
  · norm_num
  · unfold Vec3.mag
    norm_num

/-- C9: under the precondition that all link indices are in range and the
constraint arrays match the link count, `step()` succeeds, and the mirror of
`step()` in which every division checks its divisor (`stepChecked`) succeeds
with the same result: every `/d` and `/d²` of the repulsion and link phases
sits behind the `distance > 0` guard, so no division by zero occurs. -/
theorem C9_total_arithmetic (s : ForceSimulation)
    (h1 : ∀ lk ∈ s.links, linkInRange s.nodes.length lk)
    (h2 : s.distances.length = s.links.length)
    (h3 : s.strengths.length = s.links.length) :
    ∃ s', s.step = .ok s' ∧ s.stepChecked = some s' := by
  have hv : validTopology s := ⟨h1, le_of_eq h2.symm, le_of_eq h3.symm⟩
  obtain ⟨s', hs'⟩ := (step_ok_iff s).mpr hv
  exact ⟨s', hs', stepChecked_ok hs'⟩

/-- Witness for C9: two nodes with one valid link. -/
theorem C9_witness :
    (∀ lk ∈ simLink.links, linkInRange simLink.nodes.length lk) ∧
    simLink.distances.length = simLink.links.length ∧
    simLink.strengths.length = simLink.links.length ∧
    ∃ s', simLink.step = .ok s' ∧ simLink.stepChecked = some s' :=
  ⟨by decide, rfl, rfl, C9_total_arithmetic simLink (by decide) rfl rfl⟩

/-- C10: a successful `step()` mutates only node positions and velocities —
the links, distances, strengths, `maxDistance` and `velocityDecay` fields
are unchanged, the node count is preserved, and every node keeps its
charge. -/
theorem C10_step_frame (s s' : ForceSimulation) (h : s.step = .ok s') :
    s'.links = s.links ∧ s'.distances = s.distances ∧ s'.strengths = s.strengths ∧
    s'.maxDistance = s.maxDistance ∧ s'.velocityDecay = s.velocityDecay ∧
    s'.nodes.length = s.nodes.length ∧
    ∀ j : ℕ, (s'.nodes[j]?).map Node.charge = (s.nodes[j]?).map Node.charge := by
  obtain ⟨r, hll, rfl⟩ := step_ok_elim h
  refine ⟨rfl, rfl, rfl, rfl, rfl, ?_, ?_⟩
  · show (integrationPhase r s.velocityDecay).length = s.nodes.length
    rw [integrationPhase_length, (linkLoop_sameGeom hll).1, repulsionPhase_length]
  · intro j
    show ((integrationPhase r s.velocityDecay)[j]?).map Node.charge =
      (s.nodes[j]?).map Node.charge
    rw [integrationPhase_getElem?]
    have h2 := (linkLoop_sameGeom hll).2 j
    have h3 := (repulsionPhase_sameGeom s.nodes s.maxDistance).2 j
    rw [← h3.2, ← h2.2]
    cases r[j]? <;> rfl

/-- Witness for C10: the empty engine, on which `step()` succeeds. -/
theorem C10_witness :
    simNil.step = .ok simNil ∧
    (simNil.links = simNil.links ∧ simNil.distances = simNil.distances ∧
     simNil.strengths = simNil.strengths ∧ simNil.maxDistance = simNil.maxDistance ∧
     simNil.velocityDecay = simNil.velocityDecay ∧
     simNil.nodes.length = simNil.nodes.length ∧
     ∀ j : ℕ, (simNil.nodes[j]?).map Node.charge = (simNil.nodes[j]?).map Node.charge) :=
  ⟨rfl, C10_step_frame simNil simNil rfl⟩

end ForceCalc
